import Mathlib

/-!
Verification of the content-extraction pipeline of the AI web-scraper
repository (files `ai_service.py` and `scraping_service.py`).

Python strings are modelled as `List Char` (a Python `str` is a sequence of
code points).  `str.strip()` is modelled by `pyStrip` (covering the usual
ASCII whitespace characters), `str.split(sep)` by `pySplit` (leftmost,
non-overlapping occurrences of a non-empty separator), `sep.join(l)` by
`pyJoin`.  Wall-clock fields (`processing_time`) and the live language model
are not modelled; the model (the "oracle") is an injected function
`Str → Str → Option Str` where `none` models a raised exception.
-/

namespace AiScraper

/-- Python strings as lists of characters. -/
abbrev Str := List Char

/-- Coerce a Lean string literal into the model. -/
def str (s : String) : Str := s.data

/-- The ASCII whitespace characters stripped by Python `str.strip()`
(space, tab, newline, carriage return, vertical tab, form feed). -/
def pyIsSpace (c : Char) : Bool :=
  c == ' ' || c == '\t' || c == '\n' || c == '\r' || c.val == 11 || c.val == 12

/-- Remove leading whitespace, as the left half of Python `str.strip()`. -/
def pyLStrip (s : Str) : Str := s.dropWhile pyIsSpace

/-- Remove trailing whitespace, as the right half of Python `str.strip()`. -/
def pyRStrip : Str → Str
  | [] => []
  | c :: cs =>
    let r := pyRStrip cs
    if r = [] ∧ pyIsSpace c then [] else c :: r

/-- Python `str.strip()`: drop leading and trailing whitespace. -/
def pyStrip (s : Str) : Str := pyRStrip (pyLStrip s)

/-- Does `sep` occur at the start of `s`?  (Helper for `pySplit`.) -/
def beginsWith : Str → Str → Bool
  | [], _ => true
  | _ :: _, [] => false
  | a :: as, b :: bs => a == b && beginsWith as bs

/-- Fuelled worker for `pySplit`; the fuel dominates the length of `s`, and
each step consumes at least one character of `s`. -/
def pySplitFuel (sep : Str) : Nat → Str → List Str
  | _, [] => [[]]
  | 0, s => [s]
  | fuel + 1, c :: rest =>
    if beginsWith sep (c :: rest) then
      [] :: pySplitFuel sep fuel (List.drop sep.length (c :: rest))
    else
      match pySplitFuel sep fuel rest with
      | r :: rs => (c :: r) :: rs
      | [] => [[c]]

/-- Python `s.split(sep)` for a non-empty separator: split `s` at each
leftmost, non-overlapping occurrence of `sep` (Python raises on an empty
separator; the pipeline only ever splits on the two-character separators
`"\n\n"` and `". "`). -/
def pySplit (sep s : Str) : List Str := pySplitFuel sep s.length s

/-- Python `sep.join(parts)`. -/
def pyJoin (sep : Str) : List Str → Str
  | [] => []
  | [x] => x
  | x :: xs => x ++ sep ++ pyJoin sep xs

/-- The paragraph separator `"\n\n"` used by `_intelligent_chunking`. -/
def PARA_SEP : Str := str "\n\n"

/-- The sentence separator `". "` used by `_split_by_sentences`. -/
def SENT_SEP : Str := str ". "

/-- One iteration of the greedy accumulation loop shared by
`_intelligent_chunking` (with `sep = "\n\n"`) and `_split_by_sentences`
(with `sep = ". "`): if adding the next unit would push the running chunk
over the size `S` and the running chunk is non-empty, close the current
chunk (stripped) and start a new one with that unit; otherwise append the
unit to the running chunk with the separator in between. -/
def greedyStep (S : Nat) (sep : Str) (acc : List Str × Str) (u : Str) :
    List Str × Str :=
  if acc.2.length + u.length > S ∧ acc.2 ≠ [] then
    (acc.1 ++ [pyStrip acc.2], u)
  else
    (acc.1, if acc.2 ≠ [] then acc.2 ++ sep ++ u else u)

/-- The greedy accumulation loop over a list of units followed by the final
`if current_chunk.strip(): chunks.append(current_chunk.strip())`. -/
def greedyChunks (S : Nat) (sep : Str) (units : List Str) : List Str :=
  let r := units.foldl (greedyStep S sep) ([], [])
  if pyStrip r.2 ≠ [] then r.1 ++ [pyStrip r.2] else r.1

/-- `_split_by_sentences` from `ai_service.py`: split on `". "` and greedily
reaccumulate sentences into chunks of at most `S` characters. -/
def split_by_sentences (S : Nat) (content : Str) : List Str :=
  greedyChunks S SENT_SEP (pySplit SENT_SEP content)

/-- `_intelligent_chunking` from `ai_service.py`: content of length at most
`S` is returned as a single chunk unchanged; otherwise split on blank lines
and greedily reaccumulate paragraphs; if that leaves exactly one chunk that
still exceeds `S`, fall back to sentence splitting of the whole content. -/
def intelligent_chunking (S : Nat) (content : Str) : List Str :=
  if content.length ≤ S then [content]
  else
    match greedyChunks S PARA_SEP (pySplit PARA_SEP content) with
    | [c] => if c.length > S then split_by_sentences S content else [c]
    | chunks => chunks

/-- `_process_chunk` from `ai_service.py`: invoke the oracle (the prompt
chain) on one chunk; on a normal response return the stripped response text,
on any raised exception (modelled by `none`) return the empty string. -/
def process_chunk (oracle : Str → Str → Option Str) (chunk instructions : Str) :
    Str :=
  match oracle chunk instructions with
  | some response => pyStrip response
  | none => []

/-- The duplicate-removal loop of `_combine_results`: walk the valid results
keeping a `seen` set (modelled as a list, queried only for membership) and
appending each first occurrence to `unique_results`. -/
def dedupSeen (l : List Str) : List Str :=
  (l.foldl
    (fun acc r => if r ∈ acc.1 then acc else (r :: acc.1, acc.2 ++ [r]))
    ([], [])).2

/-- `_combine_results` from `ai_service.py`: drop results that are empty or
whitespace-only, return the sentinel `"No relevant data found"` if nothing
remains, otherwise join the first occurrences of the distinct results with a
blank line. -/
def combine_results (results : List Str) : Str :=
  let valid := results.filter (fun r => !r.isEmpty && !(pyStrip r).isEmpty)
  if valid = [] then str "No relevant data found"
  else pyJoin (str "\n\n") (dedupSeen valid)

/-- The `metadata` map attached to a successful extraction result
(`content_length`, `chunk_size`, `temperature`).  The oracle temperature is
an opaque configuration value threaded through unchanged. -/
structure Metadata where
  content_length : Nat
  chunk_size : Nat
  temperature : ℚ
deriving DecidableEq, Repr

/-- The dictionary returned by `extract_content`.  `error` and `metadata`
are `Option`s because the corresponding Python dict keys are present only in
some of the returned dictionaries (`none` models an absent key); the
wall-clock `processing_time` key, present in every returned dictionary, is
not modelled. -/
structure ExtractionResult where
  success : Bool
  content : Str
  error : Option Str
  confidence : ℚ
  chunks_processed : Nat
  successful_chunks : Nat
  model_used : Str
  metadata : Option Metadata
deriving DecidableEq, Repr

/-- `_create_error_result` from `ai_service.py`.  Note the Python dict
built here carries no `metadata` key. -/
def create_error_result (error_message : Str) (model : Str) :
    ExtractionResult :=
  { success := false
    content := []
    error := some error_message
    confidence := 0
    chunks_processed := 0
    successful_chunks := 0
    model_used := model
    metadata := none }

/-- The body of the per-chunk loop in `extract_content`: append the chunk
result and bump `successful_chunks` when the stripped result is non-empty.
(The `except` branch of the loop is dead: `_process_chunk` catches every
exception itself.) -/
def chunkLoop (oracle : Str → Str → Option Str) (instructions : Str)
    (acc : List Str × Nat) (chunk : Str) : List Str × Nat :=
  let result := process_chunk oracle chunk instructions
  (acc.1 ++ [result],
   if (pyStrip result).isEmpty then acc.2 else acc.2 + 1)

/-- `extract_content` from `ai_service.py`, parameterised by the configured
chunk size `S`, the model identifier, the temperature, and the oracle.  The
second component of the returned pair instruments the call: it is the list
of chunks on which the oracle was invoked (one invocation per chunk, in
order; empty when validation fails). -/
def extract_content (S : Nat) (model : Str) (temperature : ℚ)
    (oracle : Str → Str → Option Str) (content instructions : Str) :
    ExtractionResult × List Str :=
  if pyStrip content = [] then
    (create_error_result (str "Empty content provided") model, [])
  else if pyStrip instructions = [] then
    (create_error_result (str "No extraction instructions provided") model, [])
  else
    let chunks := intelligent_chunking S content
    let acc := chunks.foldl (chunkLoop oracle instructions) ([], 0)
    let confidence : ℚ :=
      if chunks ≠ [] then (acc.2 : ℚ) / (chunks.length : ℚ) else 0
    ({ success := true
       content := combine_results acc.1
       error := none
       confidence := confidence
       chunks_processed := chunks.length
       successful_chunks := acc.2
       model_used := model
       metadata := some ⟨content.length, S, temperature⟩ }, chunks)

/-- The fields of the `_analyze_dom_structure` dictionary that
`_assess_structure_quality` reads: the `h1` heading count, per-tag counts,
and the capped sorted `ids` / `classes` inventories. -/
structure DomAnalysis where
  h1_count : Nat
  paragraphs : Nat
  links : Nat
  images : Nat
  divs : Nat
  tables : Nat
  ids : List Str
  classes : List Str
deriving DecidableEq, Repr

/-- The score accumulation of `_assess_structure_quality` from
`scraping_service.py`: the Python starts `score = 0` and performs eight
independent guarded increments (`score += 2` for an h1, `score += 1` for
each of the others), which is the sum of the eight guarded contributions. -/
def structure_score (a : DomAnalysis) : Nat :=
  (if a.h1_count > 0 then 2 else 0) +
  (if a.paragraphs > 0 then 1 else 0) +
  (if a.links > 0 then 1 else 0) +
  (if a.images > 0 then 1 else 0) +
  (if a.divs > 0 then 1 else 0) +
  (if a.tables > 0 then 1 else 0) +
  (if a.ids ≠ [] then 1 else 0) +
  (if a.classes ≠ [] then 1 else 0)

/-- `_assess_structure_quality` from `scraping_service.py`: map the score to
its quality label. -/
def assess_structure_quality (a : DomAnalysis) : Str :=
  if structure_score a ≥ 7 then str "excellent"
  else if structure_score a ≥ 5 then str "good"
  else if structure_score a ≥ 3 then str "fair"
  else str "poor"

/-! Spec-side definitions, used only to state refinement theorems that
compare the code with the specification text. -/

/-- First-occurrence deduplication as the specification words it: keep each
element and delete its later exact duplicates. -/
def specDedup : List Str → List Str
  | [] => []
  | x :: xs => x :: specDedup (xs.filter (fun y => y ≠ x))
termination_by l => l.length
decreasing_by
  simp only [List.length_cons]
  exact Nat.lt_succ_of_le (List.length_filter_le _ _)

/-- The non-whitespace characters of a string, in order (used to state
reconstruction of content up to whitespace). -/
def nws (s : Str) : Str := s.filter (fun c => !pyIsSpace c)

/-! Helper lemmas about the string model. -/

theorem pyRStrip_cons (c : Char) (cs : Str) :
    pyRStrip (c :: cs) =
      if pyRStrip cs = [] ∧ pyIsSpace c then [] else c :: pyRStrip cs := rfl

theorem pyRStrip_eq_nil_iff {l : Str} :
    pyRStrip l = [] ↔ ∀ c ∈ l, pyIsSpace c := by
  induction l with
  | nil => simp [pyRStrip]
  | cons c cs ih =>
    rw [pyRStrip_cons]
    by_cases h : pyRStrip cs = [] ∧ pyIsSpace c
    · rw [if_pos h]
      constructor
      · intro _ d hd
        rcases List.mem_cons.mp hd with rfl | hd2
        · exact h.2
        · exact ih.mp h.1 d hd2
      · intro _; rfl
    · rw [if_neg h]
      constructor
      · intro hc; cases hc
      · intro hall
        exact absurd ⟨ih.mpr fun d hd => hall d (List.mem_cons_of_mem c hd),
          hall c (List.mem_cons_self c cs)⟩ h

theorem pyStrip_eq_nil_iff {s : Str} :
    pyStrip s = [] ↔ ∀ c ∈ s, pyIsSpace c := by
  unfold pyStrip pyLStrip
  rw [pyRStrip_eq_nil_iff]
  constructor
  · intro h c hc
    have hsplit : s.takeWhile pyIsSpace ++ s.dropWhile pyIsSpace = s := by
      rw [List.takeWhile_append_dropWhile]
    rw [← hsplit] at hc
    rcases List.mem_append.mp hc with h1 | h2
    · exact List.mem_takeWhile_imp h1
    · exact h c h2
  · intro h c hc
    exact h c (List.dropWhile_sublist pyIsSpace |>.mem hc)

theorem pyRStrip_length_le (l : Str) : (pyRStrip l).length ≤ l.length := by
  induction l with
  | nil => simp [pyRStrip]
  | cons c cs ih =>
    rw [pyRStrip_cons]
    by_cases h : pyRStrip cs = [] ∧ pyIsSpace c
    · simp [h]
    · simp only [if_neg h, List.length_cons]
      omega

theorem pyStrip_length_le (s : Str) : (pyStrip s).length ≤ s.length :=
  le_trans (pyRStrip_length_le _)
    ((List.dropWhile_sublist pyIsSpace).length_le)

theorem pyRStrip_idem (l : Str) : pyRStrip (pyRStrip l) = pyRStrip l := by
  induction l with
  | nil => simp [pyRStrip]
  | cons c cs ih =>
    rw [pyRStrip_cons]
    by_cases h : pyRStrip cs = [] ∧ pyIsSpace c
    · simp [h, pyRStrip]
    · rw [if_neg h, pyRStrip_cons, ih, if_neg h]

theorem dropWhile_head_false {p : Char → Bool} {l : Str} {c : Char}
    {cs : Str} (h : l.dropWhile p = c :: cs) : p c = false := by
  induction l with
  | nil => simp [List.dropWhile] at h
  | cons a as ih =>
    rw [List.dropWhile_cons] at h
    by_cases hp : p a
    · rw [if_pos hp] at h; exact ih h
    · rw [if_neg hp] at h
      cases h
      exact Bool.eq_false_iff.mpr hp

theorem pyRStrip_cons_cases (c : Char) (cs : Str) :
    pyRStrip (c :: cs) = [] ∨ pyRStrip (c :: cs) = c :: pyRStrip cs := by
  rw [pyRStrip_cons]
  by_cases h : pyRStrip cs = [] ∧ pyIsSpace c
  · left; rw [if_pos h]
  · right; rw [if_neg h]

theorem pyStrip_idem (s : Str) : pyStrip (pyStrip s) = pyStrip s := by
  unfold pyStrip pyLStrip
  have hdrop : (pyRStrip (s.dropWhile pyIsSpace)).dropWhile pyIsSpace =
      pyRStrip (s.dropWhile pyIsSpace) := by
    cases hm : s.dropWhile pyIsSpace with
    | nil => simp [pyRStrip]
    | cons c cs =>
      have hc : pyIsSpace c = false := dropWhile_head_false hm
      rcases pyRStrip_cons_cases c cs with h0 | h1
      · simp [h0]
      · rw [h1, List.dropWhile_cons, hc]; simp
  rw [hdrop, pyRStrip_idem]

theorem pyStrip_of_all_space {s : Str} (h : ∀ c ∈ s, pyIsSpace c) :
    pyStrip s = [] := pyStrip_eq_nil_iff.mpr h

theorem pyStrip_nil : pyStrip ([] : Str) = [] := rfl

/-! Helper lemmas about joining and splitting. -/

theorem pyJoin_cons_cons (sep x y : Str) (ys : List Str) :
    pyJoin sep (x :: y :: ys) = x ++ sep ++ pyJoin sep (y :: ys) := rfl

theorem pyJoin_cons_ex (sep x : Str) (xs : List Str) :
    ∃ t, pyJoin sep (x :: xs) = x ++ t := by
  cases xs with
  | nil => exact ⟨[], by simp [pyJoin]⟩
  | cons y ys =>
    exact ⟨sep ++ pyJoin sep (y :: ys), by
      rw [pyJoin_cons_cons, List.append_assoc]⟩

theorem pyJoin_append_single (sep u : Str) {l : List Str} (h : l ≠ []) :
    pyJoin sep (l ++ [u]) = pyJoin sep l ++ sep ++ u := by
  induction l with
  | nil => exact absurd rfl h
  | cons x xs ih =>
    cases xs with
    | nil => simp [pyJoin]
    | cons y ys =>
      calc pyJoin sep ((x :: y :: ys) ++ [u])
          = x ++ sep ++ pyJoin sep ((y :: ys) ++ [u]) := rfl
        _ = x ++ sep ++ (pyJoin sep (y :: ys) ++ sep ++ u) := by
              rw [ih (by simp)]
        _ = x ++ sep ++ pyJoin sep (y :: ys) ++ sep ++ u := by
              simp [List.append_assoc]

theorem beginsWith_append : ∀ {sep s : Str}, beginsWith sep s = true →
    sep ++ List.drop sep.length s = s := by
  intro sep
  induction sep with
  | nil => intro s _; simp
  | cons a as ih =>
    intro s h
    cases s with
    | nil => simp [beginsWith] at h
    | cons b bs =>
      simp only [beginsWith, Bool.and_eq_true, beq_iff_eq] at h
      obtain ⟨rfl, h2⟩ := h
      simpa using ih h2

theorem pySplitFuel_ne_nil (sep : Str) (fuel : Nat) (s : Str) :
    pySplitFuel sep fuel s ≠ [] := by
  match fuel, s with
  | _, [] => simp [pySplitFuel]
  | 0, c :: rest => simp [pySplitFuel]
  | fuel + 1, c :: rest =>
    rw [pySplitFuel]
    by_cases h : beginsWith sep (c :: rest) = true
    · simp [h]
    · simp only [if_neg h]
      cases hr : pySplitFuel sep fuel rest with
      | nil => simp
      | cons r rs => simp

theorem pyJoin_pySplitFuel {sep : Str} (hsep : sep ≠ []) :
    ∀ (fuel : Nat) (s : Str), s.length ≤ fuel →
      pyJoin sep (pySplitFuel sep fuel s) = s := by
  intro fuel
  induction fuel with
  | zero =>
    intro s hs
    have : s = [] := List.length_eq_zero.mp (Nat.le_zero.mp hs)
    subst this
    simp [pySplitFuel, pyJoin]
  | succ fuel ih =>
    intro s hs
    cases s with
    | nil => simp [pySplitFuel, pyJoin]
    | cons c rest =>
      rw [pySplitFuel]
      by_cases h : beginsWith sep (c :: rest) = true
      · rw [if_pos h]
        have hlen : sep.length ≥ 1 := by
          cases sep with
          | nil => exact absurd rfl hsep
          | cons a as => simp
        have hdrop : (List.drop sep.length (c :: rest)).length ≤ fuel := by
          rw [List.length_drop]
          simp only [List.length_cons] at hs ⊢
          omega
        have hrec := ih (List.drop sep.length (c :: rest)) hdrop
        cases hr : pySplitFuel sep fuel (List.drop sep.length (c :: rest)) with
        | nil => exact absurd hr (pySplitFuel_ne_nil sep fuel _)
        | cons p ps =>
          rw [hr] at hrec
          rw [pyJoin_cons_cons, hrec]
          simpa using beginsWith_append h
      · rw [if_neg h]
        have hrest : rest.length ≤ fuel := by
          simp only [List.length_cons] at hs; omega
        have hrec := ih rest hrest
        cases hr : pySplitFuel sep fuel rest with
        | nil => exact absurd hr (pySplitFuel_ne_nil sep fuel rest)
        | cons r rs =>
          rw [hr] at hrec
          cases rs with
          | nil =>
            simp only [pyJoin] at hrec ⊢
            rw [hrec]
          | cons r2 rs2 =>
            rw [pyJoin_cons_cons] at hrec ⊢
            rw [List.cons_append, List.cons_append, hrec]

theorem pyJoin_pySplit {sep : Str} (hsep : sep ≠ []) (s : Str) :
    pyJoin sep (pySplit sep s) = s :=
  pyJoin_pySplitFuel hsep s.length s le_rfl

theorem nonblank_ne_nil {u : Str} (h : pyStrip u ≠ []) : u ≠ [] := by
  intro h0; subst h0; exact h rfl

theorem pyJoin_nonblank {sep u : Str} {t : List Str} (hu : pyStrip u ≠ []) :
    pyJoin sep (u :: t) ≠ [] ∧ pyStrip (pyJoin sep (u :: t)) ≠ [] := by
  obtain ⟨t2, heq⟩ := pyJoin_cons_ex sep u t
  rw [heq]
  constructor
  · simp [List.append_eq_nil, nonblank_ne_nil hu]
  · intro h0
    apply hu
    apply pyStrip_eq_nil_iff.mpr
    intro c hc
    exact pyStrip_eq_nil_iff.mp h0 c (List.mem_append.mpr (Or.inl hc))

/-! Invariant lemmas for the greedy accumulation loop. -/

theorem greedy_trimmed_aux (S : Nat) (sep : Str) :
    ∀ (units : List Str) (chunks : List Str) (cur : Str),
      (∀ c ∈ chunks, ∃ x, c = pyStrip x) →
      ∀ c ∈ (units.foldl (greedyStep S sep) (chunks, cur)).1, ∃ x, c = pyStrip x := by
  intro units
  induction units with
  | nil => intro chunks cur h; simpa using h
  | cons u rest ih =>
    intro chunks cur h
    rw [List.foldl_cons]
    unfold greedyStep
    by_cases hcond : cur.length + u.length > S ∧ cur ≠ []
    · simp only [if_pos hcond]
      apply ih
      intro c hc
      rcases List.mem_append.mp hc with h1 | h2
      · exact h c h1
      · rcases List.mem_singleton.mp h2 with rfl
        exact ⟨cur, rfl⟩
    · simp only [if_neg hcond]
      exact ih _ _ h

theorem greedyChunks_trimmed (S : Nat) (sep : Str) (units : List Str) :
    ∀ c ∈ greedyChunks S sep units, ∃ x, c = pyStrip x := by
  intro c hc
  unfold greedyChunks at hc
  by_cases hg : pyStrip (units.foldl (greedyStep S sep) ([], [])).2 ≠ []
  · rw [if_pos hg] at hc
    rcases List.mem_append.mp hc with h1 | h2
    · exact greedy_trimmed_aux S sep units [] [] (by simp) c h1
    · rcases List.mem_singleton.mp h2 with rfl
      exact ⟨_, rfl⟩
  · rw [if_neg hg] at hc
    exact greedy_trimmed_aux S sep units [] [] (by simp) c hc

theorem greedy_bound_aux (S : Nat) (sep : Str) (units0 : List Str) :
    ∀ (units : List Str), (∀ u ∈ units, u ∈ units0) →
    ∀ (chunks : List Str) (cur : Str),
      (∀ c ∈ chunks, c.length ≤ S + sep.length ∨ ∃ u ∈ units0, c = pyStrip u) →
      (cur = [] ∨ cur.length ≤ S + sep.length ∨ cur ∈ units0) →
      (∀ c ∈ (units.foldl (greedyStep S sep) (chunks, cur)).1,
        c.length ≤ S + sep.length ∨ ∃ u ∈ units0, c = pyStrip u) ∧
      ((units.foldl (greedyStep S sep) (chunks, cur)).2 = [] ∨
       (units.foldl (greedyStep S sep) (chunks, cur)).2.length ≤ S + sep.length ∨
       (units.foldl (greedyStep S sep) (chunks, cur)).2 ∈ units0) := by
  intro units
  induction units with
  | nil => intro _ chunks cur hchunks hcur; exact ⟨hchunks, hcur⟩
  | cons u rest ih =>
    intro hmem chunks cur hchunks hcur
    have hu : u ∈ units0 := hmem u (List.mem_cons_self u rest)
    have hrest : ∀ v ∈ rest, v ∈ units0 :=
      fun v hv => hmem v (List.mem_cons_of_mem u hv)
    rw [List.foldl_cons]
    unfold greedyStep
    by_cases hcond : cur.length + u.length > S ∧ cur ≠ []
    · simp only [if_pos hcond]
      apply ih hrest
      · intro c hc
        rcases List.mem_append.mp hc with h1 | h2
        · exact hchunks c h1
        · rcases List.mem_singleton.mp h2 with rfl
          rcases hcur with h0 | hlen | hin
          · exact absurd h0 hcond.2
          · exact Or.inl (le_trans (pyRStrip_length_le _)
              (le_trans ((List.dropWhile_sublist pyIsSpace).length_le) hlen))
          · exact Or.inr ⟨cur, hin, rfl⟩
      · exact Or.inr (Or.inr hu)
    · simp only [if_neg hcond]
      by_cases hne : cur ≠ []
      · simp only [if_pos hne]
        apply ih hrest _ _ hchunks
        right; left
        have hle : ¬(cur.length + u.length > S) := fun hgt => hcond ⟨hgt, hne⟩
        simp only [List.length_append]
        omega
      · simp only [if_neg hne]
        exact ih hrest _ _ hchunks (Or.inr (Or.inr hu))

theorem greedyChunks_bound (S : Nat) (sep : Str) (units : List Str) :
    ∀ c ∈ greedyChunks S sep units,
      c.length ≤ S + sep.length ∨ ∃ u ∈ units, c = pyStrip u := by
  intro c hc
  have haux := greedy_bound_aux S sep units units (fun u hu => hu) [] []
    (by simp) (Or.inl rfl)
  unfold greedyChunks at hc
  by_cases hg : pyStrip (units.foldl (greedyStep S sep) ([], [])).2 ≠ []
  · rw [if_pos hg] at hc
    rcases List.mem_append.mp hc with h1 | h2
    · exact haux.1 c h1
    · rcases List.mem_singleton.mp h2 with rfl
      rcases haux.2 with h0 | hlen | hin
      · rw [h0] at hg; exact absurd rfl hg
      · exact Or.inl (le_trans (pyStrip_length_le _) hlen)
      · exact Or.inr ⟨_, hin, rfl⟩
  · rw [if_neg hg] at hc
    exact haux.1 c hc

theorem greedy_partition_aux (S : Nat) (sep : Str) :
    ∀ (units : List Str), (∀ u ∈ units, pyStrip u ≠ []) →
    ∀ (groups : List (List Str)) (cg : List Str),
      (∀ g ∈ groups, g ≠ []) →
      (∀ u ∈ cg, pyStrip u ≠ []) →
      ∃ (groups2 : List (List Str)) (cg2 : List Str),
        (∀ g ∈ groups2, g ≠ []) ∧ (∀ u ∈ cg2, pyStrip u ≠ []) ∧
        groups2.flatten ++ cg2 = (groups.flatten ++ cg) ++ units ∧
        units.foldl (greedyStep S sep)
            (groups.map (fun g => pyStrip (pyJoin sep g)), pyJoin sep cg) =
          (groups2.map (fun g => pyStrip (pyJoin sep g)), pyJoin sep cg2) := by
  intro units
  induction units with
  | nil =>
    intro _ groups cg hg hcg
    exact ⟨groups, cg, hg, hcg, by simp, rfl⟩
  | cons u rest ih =>
    intro hu groups cg hg hcg
    have hunb : pyStrip u ≠ [] := hu u (List.mem_cons_self u rest)
    have hrest : ∀ v ∈ rest, pyStrip v ≠ [] :=
      fun v hv => hu v (List.mem_cons_of_mem u hv)
    rw [List.foldl_cons]
    unfold greedyStep
    by_cases hcond : (pyJoin sep cg).length + u.length > S ∧ pyJoin sep cg ≠ []
    · simp only [if_pos hcond]
      have hcgne : cg ≠ [] := by
        intro h0; subst h0; exact hcond.2 rfl
      obtain ⟨groups2, cg2, h1, h2, h3, h4⟩ :=
        ih hrest (groups ++ [cg]) [u]
          (by intro g hgmem
              rcases List.mem_append.mp hgmem with ha | hb
              · exact hg g ha
              · rcases List.mem_singleton.mp hb with rfl; exact hcgne)
          (by intro v hv; rcases List.mem_singleton.mp hv with rfl; exact hunb)
      refine ⟨groups2, cg2, h1, h2, ?_, ?_⟩
      · rw [h3]; simp [List.append_assoc]
      · have hmap : (groups ++ [cg]).map (fun g => pyStrip (pyJoin sep g)) =
            groups.map (fun g => pyStrip (pyJoin sep g)) ++ [pyStrip (pyJoin sep cg)] := by
          simp
        rw [← hmap]
        have hju : pyJoin sep [u] = u := rfl
        rw [← hju]
        exact h4
    · simp only [if_neg hcond]
      by_cases hne : pyJoin sep cg ≠ []
      · simp only [if_pos hne]
        have hcgne : cg ≠ [] := by
          intro h0; subst h0; exact hne rfl
        have hjoin : pyJoin sep cg ++ sep ++ u = pyJoin sep (cg ++ [u]) :=
          (pyJoin_append_single sep u hcgne).symm
        rw [hjoin]
        obtain ⟨groups2, cg2, h1, h2, h3, h4⟩ :=
          ih hrest groups (cg ++ [u]) hg
            (by intro v hv
                rcases List.mem_append.mp hv with ha | hb
                · exact hcg v ha
                · rcases List.mem_singleton.mp hb with rfl; exact hunb)
        refine ⟨groups2, cg2, h1, h2, ?_, h4⟩
        rw [h3]; simp [List.append_assoc]
      · simp only [if_neg hne]
        have hcgnil : cg = [] := by
          cases cg with
          | nil => rfl
          | cons v vs =>
            exfalso
            exact (pyJoin_nonblank (hcg v (List.mem_cons_self v vs))).1
              (not_not.mp hne)
        subst hcgnil
        obtain ⟨groups2, cg2, h1, h2, h3, h4⟩ :=
          ih hrest groups [u] hg
            (by intro v hv; rcases List.mem_singleton.mp hv with rfl; exact hunb)
        refine ⟨groups2, cg2, h1, h2, ?_, ?_⟩
        · rw [h3]; simp [List.append_assoc]
        · have hju : pyJoin sep [u] = u := rfl
          rw [← hju]
          exact h4

theorem greedyChunks_partition (S : Nat) (sep : Str) (units : List Str)
    (hu : ∀ u ∈ units, pyStrip u ≠ []) :
    ∃ groups : List (List Str), (∀ g ∈ groups, g ≠ []) ∧
      groups.flatten = units ∧
      greedyChunks S sep units = groups.map (fun g => pyStrip (pyJoin sep g)) := by
  obtain ⟨groups2, cg2, h1, h2, h3, h4⟩ :=
    greedy_partition_aux S sep units hu [] [] (by simp) (by simp)
  simp only [List.map_nil, List.flatten_nil, List.nil_append] at h3 h4
  have hnil : pyJoin sep ([] : List Str) = [] := rfl
  rw [hnil] at h4
  unfold greedyChunks
  rw [h4]
  dsimp only
  cases hcg : cg2 with
  | nil =>
    subst hcg
    simp only [List.append_nil] at h3
    refine ⟨groups2, h1, h3, ?_⟩
    simp [pyJoin, pyStrip_nil]
  | cons v vs =>
    subst hcg
    have hnb : pyStrip (pyJoin sep (v :: vs)) ≠ [] :=
      (pyJoin_nonblank (h2 v (List.mem_cons_self v vs))).2
    rw [if_pos hnb]
    refine ⟨groups2 ++ [v :: vs], ?_, ?_, ?_⟩
    · intro g hgmem
      rcases List.mem_append.mp hgmem with ha | hb
      · exact h1 g ha
      · rcases List.mem_singleton.mp hb with rfl; simp
    · rw [← h3]; simp
    · simp

/-! Lemmas about `intelligent_chunking` as a whole. -/

theorem intelligent_chunking_le {S : Nat} {content : Str}
    (h : content.length ≤ S) : intelligent_chunking S content = [content] := by
  unfold intelligent_chunking
  rw [if_pos h]

theorem intelligent_chunking_cases (S : Nat) (content : Str)
    (h : ¬content.length ≤ S) :
    intelligent_chunking S content =
        greedyChunks S PARA_SEP (pySplit PARA_SEP content) ∨
    intelligent_chunking S content =
        greedyChunks S SENT_SEP (pySplit SENT_SEP content) := by
  unfold intelligent_chunking
  rw [if_neg h]
  cases hm : greedyChunks S PARA_SEP (pySplit PARA_SEP content) with
  | nil => left; rfl
  | cons c cs =>
    cases cs with
    | nil =>
      by_cases hlen : c.length > S
      · right
        show (if c.length > S then split_by_sentences S content else [c]) = _
        rw [if_pos hlen]
        rfl
      · left
        show (if c.length > S then split_by_sentences S content else [c]) = _
        rw [if_neg hlen, ← hm]
    | cons c2 cs2 => left; rfl

/-! Lemmas about deduplication and result combination. -/

theorem dedupSeen_fold (l : List Str) : ∀ (seen uniq : List Str),
    (l.foldl (fun acc r => if r ∈ acc.1 then acc else (r :: acc.1, acc.2 ++ [r]))
        (seen, uniq)).2
      = uniq ++ specDedup (l.filter (fun y => decide (y ∉ seen))) := by
  induction l with
  | nil => intro seen uniq; simp [specDedup]
  | cons x xs ih =>
    intro seen uniq
    rw [List.foldl_cons]
    dsimp only
    by_cases hx : x ∈ seen
    · rw [if_pos hx, ih, List.filter_cons]
      simp [hx]
    · rw [if_neg hx, ih, List.filter_cons]
      have hdx : decide (x ∉ seen) = true := by simp [hx]
      rw [hdx]
      simp only [if_true]
      rw [specDedup, List.filter_filter]
      have hpred : ∀ y ∈ xs,
          (decide (y ≠ x) && decide (y ∉ seen)) = decide (y ∉ x :: seen) := by
        intro y _
        by_cases h1 : y = x <;> by_cases h2 : y ∈ seen <;> simp [h1, h2]
      rw [List.filter_congr hpred]
      simp [List.append_assoc]

theorem dedupSeen_eq_specDedup (l : List Str) : dedupSeen l = specDedup l := by
  unfold dedupSeen
  rw [dedupSeen_fold]
  have : l.filter (fun y => decide (y ∉ ([] : List Str))) = l := by
    apply List.filter_eq_self.mpr
    intro a _
    simp
  rw [this]
  simp

theorem combine_results_eq (results : List Str) :
    combine_results results =
      (if results.filter (fun r => !(pyStrip r).isEmpty) = []
       then str "No relevant data found"
       else pyJoin (str "\n\n")
         (specDedup (results.filter (fun r => !(pyStrip r).isEmpty)))) := by
  unfold combine_results
  have hfilter : results.filter (fun r => !r.isEmpty && !(pyStrip r).isEmpty)
      = results.filter (fun r => !(pyStrip r).isEmpty) := by
    apply List.filter_congr
    intro r _
    cases r with
    | nil => simp [pyStrip_nil]
    | cons c cs => simp
  rw [hfilter]
  simp only [dedupSeen_eq_specDedup]

theorem mem_specDedup (u : Str) : ∀ (n : Nat) (l : List Str),
    l.length ≤ n → u ∈ l → u ∈ specDedup l := by
  intro n
  induction n with
  | zero =>
    intro l hl hu
    have : l = [] := List.length_eq_zero.mp (Nat.le_zero.mp hl)
    subst this
    cases hu
  | succ n ih =>
    intro l hl hu
    cases l with
    | nil => cases hu
    | cons x xs =>
      rw [specDedup]
      rcases List.mem_cons.mp hu with rfl | hxs
      · exact List.mem_cons_self _ _
      · by_cases hux : u = x
        · subst hux; exact List.mem_cons_self _ _
        · apply List.mem_cons_of_mem
          apply ih
          · have hle := List.length_filter_le (fun y => decide (y ≠ x)) xs
            simp only [List.length_cons] at hl
            omega
          · exact List.mem_filter.mpr ⟨hxs, by simp [hux]⟩

theorem pyJoin_mem_decomp (sep u : Str) : ∀ (l : List Str), u ∈ l →
    ∃ a b, pyJoin sep l = a ++ (u ++ b) := by
  intro l
  induction l with
  | nil => intro h; cases h
  | cons x xs ih =>
    intro hu
    rcases List.mem_cons.mp hu with rfl | hxs
    · obtain ⟨t, ht⟩ := pyJoin_cons_ex sep u xs
      exact ⟨[], t, by simpa using ht⟩
    · cases xs with
      | nil => cases hxs
      | cons y ys =>
        obtain ⟨a, b, hab⟩ := ih hxs
        rw [pyJoin_cons_cons]
        exact ⟨x ++ sep ++ a, b, by rw [hab]; simp [List.append_assoc]⟩

theorem combine_results_includes {results : List Str} {u : Str}
    (hu : u ∈ results) (hnb : pyStrip u ≠ []) :
    ∃ a b, combine_results results = a ++ (u ++ b) := by
  rw [combine_results_eq]
  have humem : u ∈ results.filter (fun r => !(pyStrip r).isEmpty) :=
    List.mem_filter.mpr ⟨hu, by simp [hnb]⟩
  have hne : results.filter (fun r => !(pyStrip r).isEmpty) ≠ [] := by
    intro h0
    rw [h0] at humem
    cases humem
  rw [if_neg hne]
  exact pyJoin_mem_decomp _ u _
    (mem_specDedup u _ _ le_rfl humem)

/-! Lemmas about the extraction loop. -/

theorem chunkLoop_foldl (oracle : Str → Str → Option Str) (ins : Str) :
    ∀ (chunks : List Str) (res : List Str) (n : Nat),
      chunks.foldl (chunkLoop oracle ins) (res, n) =
        (res ++ chunks.map (fun c => process_chunk oracle c ins),
         n + chunks.countP
           (fun c => !(pyStrip (process_chunk oracle c ins)).isEmpty)) := by
  intro chunks
  induction chunks with
  | nil => intro res n; simp
  | cons c cs ih =>
    intro res n
    rw [List.foldl_cons]
    have hstep : chunkLoop oracle ins (res, n) c =
        (res ++ [process_chunk oracle c ins],
         if (pyStrip (process_chunk oracle c ins)).isEmpty then n else n + 1) :=
      rfl
    rw [hstep, ih, List.countP_cons]
    by_cases hc : (pyStrip (process_chunk oracle c ins)).isEmpty
    · rw [if_pos hc]
      have hb : (!(pyStrip (process_chunk oracle c ins)).isEmpty) = false := by
        simp [hc]
      simp [hb]
    · rw [if_neg hc]
      have hb : (!(pyStrip (process_chunk oracle c ins)).isEmpty) = true := by
        simp only [Bool.not_eq_true] at hc
        simp [hc]
      simp only [hb, if_true, List.map_cons, Prod.mk.injEq]
      exact ⟨by simp, by omega⟩

theorem extract_content_valid (S : Nat) (model : Str) (temp : ℚ)
    (oracle : Str → Str → Option Str) (content ins : Str)
    (hc : pyStrip content ≠ []) (hi : pyStrip ins ≠ []) :
    extract_content S model temp oracle content ins =
      ({ success := true
         content := combine_results ((intelligent_chunking S content).map
           (fun c => process_chunk oracle c ins))
         error := none
         confidence :=
           if intelligent_chunking S content ≠ [] then
             ((intelligent_chunking S content).countP
               (fun c => !(pyStrip (process_chunk oracle c ins)).isEmpty) : ℚ) /
             ((intelligent_chunking S content).length : ℚ)
           else 0
         chunks_processed := (intelligent_chunking S content).length
         successful_chunks := (intelligent_chunking S content).countP
           (fun c => !(pyStrip (process_chunk oracle c ins)).isEmpty)
         model_used := model
         metadata := some ⟨content.length, S, temp⟩ },
       intelligent_chunking S content) := by
  unfold extract_content
  rw [if_neg hc, if_neg hi]
  simp only [chunkLoop_foldl]
  simp

theorem not_isEmpty_iff {l : Str} : (!l.isEmpty) = true ↔ l ≠ [] := by
  cases l <;> simp

/-! The claims. -/

/-- C4: over any list of per-chunk outputs, `_combine_results` drops
empty/blank outputs, removes exact string duplicates keeping the first
occurrence of each in order, joins the survivors with a blank line, and
returns exactly the sentinel "No relevant data found" when nothing
survives; in particular the outputs ["A", "B", "A", ""] aggregate to
"A\n\nB". -/
theorem combine_results_aggregation :
    (∀ results : List Str,
      combine_results results =
        (if results.filter (fun r => !(pyStrip r).isEmpty) = []
         then str "No relevant data found"
         else pyJoin (str "\n\n")
           (specDedup (results.filter (fun r => !(pyStrip r).isEmpty))))) ∧
    combine_results [str "A", str "B", str "A", []] = str "A\n\nB" ∧
    combine_results [[], [], []] = str "No relevant data found" := by
  refine ⟨combine_results_eq, by decide, by decide⟩

/-- C10: counterexample — a DOM analysis with an h1 and all seven other
features present scores 2+1+1+1+1+1+1+1 = 9, so the score does exceed the
bound 8 asserted by the claim. -/
theorem structure_score_max_cex :
    structure_score
        (⟨1, 1, 1, 1, 1, 1, [str "a"], [str "b"]⟩ : DomAnalysis) = 9 ∧
    ¬structure_score
        (⟨1, 1, 1, 1, 1, 1, [str "a"], [str "b"]⟩ : DomAnalysis) ≤ 8 := by
  decide

/-- C10 (amended): the structure-quality score starts at 0, adds 2 when at
least one h1 exists and 1 for each of paragraphs, links, images, divs,
tables, a non-empty id set and a non-empty class set; it never exceeds 9
(not 8 as claimed), and maps to labels by score ≥ 7 "excellent", ≥ 5
"good", ≥ 3 "fair", else "poor"; the analysis with one h1 and several
paragraphs and nothing else scores 3 and is graded "fair". -/
theorem structure_score_spec (a : DomAnalysis) :
    structure_score a ≤ 9 ∧
    structure_score a =
      (if a.h1_count > 0 then 2 else 0) + (if a.paragraphs > 0 then 1 else 0) +
      (if a.links > 0 then 1 else 0) + (if a.images > 0 then 1 else 0) +
      (if a.divs > 0 then 1 else 0) + (if a.tables > 0 then 1 else 0) +
      (if a.ids ≠ [] then 1 else 0) + (if a.classes ≠ [] then 1 else 0) ∧
    (structure_score a ≥ 7 → assess_structure_quality a = str "excellent") ∧
    (5 ≤ structure_score a ∧ structure_score a < 7 →
      assess_structure_quality a = str "good") ∧
    (3 ≤ structure_score a ∧ structure_score a < 5 →
      assess_structure_quality a = str "fair") ∧
    (structure_score a < 3 → assess_structure_quality a = str "poor") ∧
    structure_score (⟨1, 3, 0, 0, 0, 0, [], []⟩ : DomAnalysis) = 3 ∧
    assess_structure_quality (⟨1, 3, 0, 0, 0, 0, [], []⟩ : DomAnalysis) =
      str "fair" := by
  have hform : structure_score a =
      (if a.h1_count > 0 then 2 else 0) + (if a.paragraphs > 0 then 1 else 0) +
      (if a.links > 0 then 1 else 0) + (if a.images > 0 then 1 else 0) +
      (if a.divs > 0 then 1 else 0) + (if a.tables > 0 then 1 else 0) +
      (if a.ids ≠ [] then 1 else 0) + (if a.classes ≠ [] then 1 else 0) := rfl
  refine ⟨?_, hform, ?_, ?_, ?_, ?_, by decide, by decide⟩
  · rw [hform]
    have b1 : (if a.h1_count > 0 then 2 else 0) ≤ 2 := by split_ifs <;> omega
    have b2 : (if a.paragraphs > 0 then 1 else 0) ≤ 1 := by split_ifs <;> omega
    have b3 : (if a.links > 0 then 1 else 0) ≤ 1 := by split_ifs <;> omega
    have b4 : (if a.images > 0 then 1 else 0) ≤ 1 := by split_ifs <;> omega
    have b5 : (if a.divs > 0 then 1 else 0) ≤ 1 := by split_ifs <;> omega
    have b6 : (if a.tables > 0 then 1 else 0) ≤ 1 := by split_ifs <;> omega
    have b7 : (if a.ids ≠ [] then 1 else 0) ≤ 1 := by split_ifs <;> omega
    have b8 : (if a.classes ≠ [] then 1 else 0) ≤ 1 := by split_ifs <;> omega
    omega
  · intro h
    unfold assess_structure_quality
    rw [if_pos h]
  · intro h
    unfold assess_structure_quality
    rw [if_neg (by omega), if_pos h.1]
  · intro h
    unfold assess_structure_quality
    rw [if_neg (by omega), if_neg (by omega), if_pos h.1]
  · intro h
    unfold assess_structure_quality
    rw [if_neg (by omega), if_neg (by omega), if_neg (by omega)]

/-- C10 (amended, witness): the all-features analysis scores at least 7 and
is graded "excellent". -/
theorem structure_score_spec_w :
    assess_structure_quality
        (⟨1, 1, 1, 1, 1, 1, [str "a"], [str "b"]⟩ : DomAnalysis) =
      str "excellent" :=
  (structure_score_spec
    (⟨1, 1, 1, 1, 1, 1, [str "a"], [str "b"]⟩ : DomAnalysis)).2.2.1 (by decide)

/-- C8: blank content yields the error result "Empty content provided",
non-blank content with blank instructions yields the error result "No
extraction instructions provided"; in either case the returned record has
success = false, confidence 0 and zero chunks, and the oracle is never
invoked (the instrumented call list is empty). -/
theorem validation_rejects_blank (S : Nat) (model : Str) (temp : ℚ)
    (oracle : Str → Str → Option Str) (content ins : Str) :
    (pyStrip content = [] →
      extract_content S model temp oracle content ins =
        (create_error_result (str "Empty content provided") model, [])) ∧
    (pyStrip content ≠ [] → pyStrip ins = [] →
      extract_content S model temp oracle content ins =
        (create_error_result (str "No extraction instructions provided") model,
         [])) ∧
    (pyStrip content = [] ∨ pyStrip ins = [] →
      (extract_content S model temp oracle content ins).1.success = false ∧
      (extract_content S model temp oracle content ins).1.confidence = 0 ∧
      (extract_content S model temp oracle content ins).1.chunks_processed = 0 ∧
      (extract_content S model temp oracle content ins).2 = []) := by
  refine ⟨?_, ?_, ?_⟩
  · intro h
    unfold extract_content
    rw [if_pos h]
  · intro hc hi
    unfold extract_content
    rw [if_neg hc, if_pos hi]
  · intro hor
    by_cases hc : pyStrip content = []
    · unfold extract_content
      rw [if_pos hc]
      exact ⟨rfl, rfl, rfl, rfl⟩
    · have hi : pyStrip ins = [] := by
        rcases hor with h | h
        · exact absurd h hc
        · exact h
      unfold extract_content
      rw [if_neg hc, if_pos hi]
      exact ⟨rfl, rfl, rfl, rfl⟩

/-- C8 (witness): the concrete validation failure from the specification,
`extract(content="", instructions="find X")`, at chunk size 6000. -/
theorem validation_rejects_blank_w :
    extract_content 6000 (str "llama3.2:1b") 0 (fun _ _ => none) []
        (str "find X") =
      (create_error_result (str "Empty content provided") (str "llama3.2:1b"),
       []) ∧
    (extract_content 6000 (str "llama3.2:1b") 0 (fun _ _ => none) []
        (str "find X")).1.success = false :=
  ⟨(validation_rejects_blank 6000 (str "llama3.2:1b") 0 (fun _ _ => none) []
      (str "find X")).1 (by decide),
   ((validation_rejects_blank 6000 (str "llama3.2:1b") 0 (fun _ _ => none) []
      (str "find X")).2.2 (Or.inl (by decide))).1⟩

/-- C9: counterexample — the record returned for a validation failure has
no metadata (the Python `_create_error_result` dict carries no `metadata`
key), so metadata is not present in every returned record. -/
theorem error_result_metadata_cex :
    (extract_content 6000 (str "llama3.2:1b") 0 (fun _ _ => none) []
        (str "find X")).1.metadata = none := by
  decide

/-- C9 (amended): every call returns a full `ExtractionResult` record; the
fields success, content, confidence, chunks_processed, successful_chunks
and model_used are present in every record (as is the unmodelled
processing_time), but metadata is present exactly on the success shape,
while error results instead carry an error message. -/
theorem result_shape (S : Nat) (model : Str) (temp : ℚ)
    (oracle : Str → Str → Option Str) (content ins : Str) :
    ((extract_content S model temp oracle content ins).1.metadata.isSome ↔
      (extract_content S model temp oracle content ins).1.success = true) ∧
    ((extract_content S model temp oracle content ins).1.error.isSome ↔
      (extract_content S model temp oracle content ins).1.success = false) := by
  unfold extract_content
  by_cases hc : pyStrip content = []
  · rw [if_pos hc]; simp [create_error_result]
  · rw [if_neg hc]
    by_cases hi : pyStrip ins = []
    · rw [if_pos hi]; simp [create_error_result]
    · rw [if_neg hi]; simp

/-- C2: the returned confidence equals successful_chunks / chunks_processed
when chunks_processed > 0 and 0 otherwise, so it always lies in [0,1]; it
is 1 when there is at least one chunk and every chunk yields non-empty
trimmed output, and 0 when every chunk yields empty output or errors. -/
theorem confidence_invariant (S : Nat) (model : Str) (temp : ℚ)
    (oracle : Str → Str → Option Str) (content ins : Str)
    (r : ExtractionResult)
    (hr : r = (extract_content S model temp oracle content ins).1) :
    (0 ≤ r.confidence ∧ r.confidence ≤ 1) ∧
    (0 < r.chunks_processed →
      r.confidence = (r.successful_chunks : ℚ) / (r.chunks_processed : ℚ)) ∧
    (r.chunks_processed = 0 → r.confidence = 0) ∧
    (pyStrip content ≠ [] → pyStrip ins ≠ [] → 0 < r.chunks_processed →
      (∀ c ∈ intelligent_chunking S content,
        pyStrip (process_chunk oracle c ins) ≠ []) → r.confidence = 1) ∧
    (pyStrip content ≠ [] → pyStrip ins ≠ [] →
      (∀ c ∈ intelligent_chunking S content,
        pyStrip (process_chunk oracle c ins) = []) → r.confidence = 0) := by
  subst hr
  by_cases hc : pyStrip content = []
  · have hr2 : (extract_content S model temp oracle content ins).1 =
        create_error_result (str "Empty content provided") model := by
      unfold extract_content; rw [if_pos hc]
    rw [hr2]
    refine ⟨⟨le_refl 0, by norm_num [create_error_result]⟩, ?_,
      fun _ => rfl, ?_, ?_⟩
    · intro h0; exact absurd h0 (by simp [create_error_result])
    · intro hc2 _ _ _; exact absurd hc hc2
    · intro hc2 _ _; exact absurd hc hc2
  · by_cases hi : pyStrip ins = []
    · have hr2 : (extract_content S model temp oracle content ins).1 =
          create_error_result (str "No extraction instructions provided")
            model := by
        unfold extract_content; rw [if_neg hc, if_pos hi]
      rw [hr2]
      refine ⟨⟨le_refl 0, by norm_num [create_error_result]⟩, ?_,
        fun _ => rfl, ?_, ?_⟩
      · intro h0; exact absurd h0 (by simp [create_error_result])
      · intro _ hi2 _ _; exact absurd hi hi2
      · intro _ hi2 _; exact absurd hi hi2
    · rw [extract_content_valid S model temp oracle content ins hc hi]
      dsimp only
      have hk := List.countP_le_length
        (fun c => !(pyStrip (process_chunk oracle c ins)).isEmpty)
        (l := intelligent_chunking S content)
      by_cases hn : intelligent_chunking S content = []
      · rw [if_neg (by simp [hn])]
        refine ⟨⟨le_refl 0, by norm_num⟩, ?_, fun _ => rfl, ?_, ?_⟩
        · intro h0
          rw [hn] at h0
          exact absurd h0 (by simp)
        · intro _ _ h0 _
          rw [hn] at h0
          exact absurd h0 (by simp)
        · intro _ _ _; rfl
      · rw [if_pos hn]
        have hlpos : 0 < (intelligent_chunking S content).length :=
          List.length_pos.mpr hn
        have hcastpos : (0 : ℚ) < ((intelligent_chunking S content).length : ℚ) := by
          exact_mod_cast hlpos
        refine ⟨⟨?_, ?_⟩, fun _ => rfl, ?_, ?_, ?_⟩
        · apply div_nonneg <;> positivity
        · rw [div_le_one hcastpos]
          exact_mod_cast hk
        · intro h0; omega
        · intro _ _ _ hall
          have hfull : (intelligent_chunking S content).countP
              (fun c => !(pyStrip (process_chunk oracle c ins)).isEmpty) =
              (intelligent_chunking S content).length :=
            List.countP_eq_length.mpr
              (fun c hcm => not_isEmpty_iff.mpr (hall c hcm))
          rw [hfull]
          exact div_self (ne_of_gt hcastpos)
        · intro _ _ hall
          have hzero : (intelligent_chunking S content).countP
              (fun c => !(pyStrip (process_chunk oracle c ins)).isEmpty) = 0 :=
            List.countP_eq_zero.mpr
              (fun c hcm => by simp [hall c hcm])
          rw [hzero]
          simp

/-- C2 (witness): with a single-chunk content and an oracle echoing the
chunk, confidence is 1. -/
theorem confidence_invariant_w :
    (extract_content 6000 (str "m") 0 (fun c _ => some c) (str "hello")
      (str "find")).1.confidence = 1 :=
  (confidence_invariant 6000 (str "m") 0 (fun c _ => some c) (str "hello")
      (str "find") _ rfl).2.2.2.1 (by decide) (by decide) (by decide)
    (by decide)

/-- C1: counterexample — with two chunks whose oracle answers are "data"
and the literal prompt sentinel "No relevant data found", the code counts
both chunks as successful (confidence 1, not 1/2) and the sentinel text is
included in the aggregated content, contradicting the claim that a
sentinel answer is unsuccessful and excluded. -/
theorem sentinel_counted_cex :
    (extract_content 2 (str "m") 0
      (fun chunk _ => if chunk = str "aa" then some (str "data")
        else some (str "No relevant data found"))
      (str "aa\n\nbb") (str "find")).1.successful_chunks = 2 ∧
    (extract_content 2 (str "m") 0
      (fun chunk _ => if chunk = str "aa" then some (str "data")
        else some (str "No relevant data found"))
      (str "aa\n\nbb") (str "find")).1.chunks_processed = 2 ∧
    (extract_content 2 (str "m") 0
      (fun chunk _ => if chunk = str "aa" then some (str "data")
        else some (str "No relevant data found"))
      (str "aa\n\nbb") (str "find")).1.confidence = 1 ∧
    (extract_content 2 (str "m") 0
      (fun chunk _ => if chunk = str "aa" then some (str "data")
        else some (str "No relevant data found"))
      (str "aa\n\nbb") (str "find")).1.content =
      str "data\n\nNo relevant data found" := by
  refine ⟨by decide, by decide, ?_, by decide⟩
  rw [extract_content_valid 2 (str "m") 0
    (fun chunk _ => if chunk = str "aa" then some (str "data")
      else some (str "No relevant data found"))
    (str "aa\n\nbb") (str "find") (by decide) (by decide)]
  dsimp only
  have hchunks : intelligent_chunking 2 (str "aa\n\nbb") =
      [str "aa", str "bb"] := by decide
  rw [hchunks, if_pos (by simp)]
  have hcount : ([str "aa", str "bb"].countP
      (fun c => !(pyStrip (process_chunk
        (fun chunk _ => if chunk = str "aa" then some (str "data")
          else some (str "No relevant data found")) c (str "find"))).isEmpty))
      = 2 := by decide
  rw [hcount]
  norm_num

/-- C1 (amended): a chunk counts as successful exactly when the stripped
oracle output is non-empty; the literal sentinel text "No relevant data
found" is itself non-empty, so such an answer is counted as successful for
confidence purposes and its text is included in the aggregated content. -/
theorem sentinel_counted (S : Nat) (model : Str) (temp : ℚ)
    (oracle : Str → Str → Option Str) (content ins : Str)
    (hc : pyStrip content ≠ []) (hi : pyStrip ins ≠ []) :
    (extract_content S model temp oracle content ins).1.successful_chunks =
      (intelligent_chunking S content).countP
        (fun c => !(pyStrip (process_chunk oracle c ins)).isEmpty) ∧
    (∀ c ∈ intelligent_chunking S content,
      pyStrip (process_chunk oracle c ins) ≠ [] →
      ∃ a b, (extract_content S model temp oracle content ins).1.content =
        a ++ (process_chunk oracle c ins ++ b)) := by
  rw [extract_content_valid S model temp oracle content ins hc hi]
  dsimp only
  refine ⟨rfl, ?_⟩
  intro c hcm hnb
  exact combine_results_includes (List.mem_map_of_mem _ hcm) hnb

/-- C1 (amended, witness): with every oracle answer equal to the sentinel,
the sentinel text appears inside the aggregated content. -/
theorem sentinel_counted_w :
    ∃ a b, (extract_content 2 (str "m") 0
        (fun _ _ => some (str "No relevant data found"))
        (str "aa\n\nbb") (str "find")).1.content =
      a ++ (str "No relevant data found" ++ b) := by
  have h := (sentinel_counted 2 (str "m") 0
    (fun _ _ => some (str "No relevant data found"))
    (str "aa\n\nbb") (str "find") (by decide) (by decide)).2
    (str "aa") (by decide) (by decide)
  have hp : process_chunk (fun _ _ => some (str "No relevant data found"))
      (str "aa") (str "find") = str "No relevant data found" := by decide
  rw [hp] at h
  exact h

/-- C3: when the oracle raises on the middle chunk of three and returns
non-blank text on the other two, each failure is absorbed locally (the
failed chunk contributes the empty result to aggregation), all three
chunks are processed, and the call still returns success = true with
successful_chunks = 2 and confidence 2/3. -/
theorem chunk_failure_isolation (S : Nat) (model : Str) (temp : ℚ)
    (oracle : Str → Str → Option Str) (content ins : Str)
    (hc : pyStrip content ≠ []) (hi : pyStrip ins ≠ [])
    (c1 c2 c3 t1 t3 : Str)
    (hchunks : intelligent_chunking S content = [c1, c2, c3])
    (h1 : oracle c1 ins = some t1) (h1nb : pyStrip t1 ≠ [])
    (h2 : oracle c2 ins = none)
    (h3 : oracle c3 ins = some t3) (h3nb : pyStrip t3 ≠ []) :
    (extract_content S model temp oracle content ins).1.success = true ∧
    (extract_content S model temp oracle content ins).1.chunks_processed = 3 ∧
    (extract_content S model temp oracle content ins).1.successful_chunks = 2 ∧
    (extract_content S model temp oracle content ins).1.confidence = 2 / 3 ∧
    (extract_content S model temp oracle content ins).1.content =
      combine_results [pyStrip t1, [], pyStrip t3] := by
  rw [extract_content_valid S model temp oracle content ins hc hi]
  dsimp only
  rw [hchunks]
  have hp1 : process_chunk oracle c1 ins = pyStrip t1 := by
    unfold process_chunk; rw [h1]
  have hp2 : process_chunk oracle c2 ins = [] := by
    unfold process_chunk; rw [h2]
  have hp3 : process_chunk oracle c3 ins = pyStrip t3 := by
    unfold process_chunk; rw [h3]
  have hcount : [c1, c2, c3].countP
      (fun c => !(pyStrip (process_chunk oracle c ins)).isEmpty) = 2 := by
    simp only [List.countP_cons, List.countP_nil, hp1, hp2, hp3]
    rw [pyStrip_idem t1, pyStrip_idem t3]
    have hb1 : (!(pyStrip t1).isEmpty) = true := not_isEmpty_iff.mpr h1nb
    have hb3 : (!(pyStrip t3).isEmpty) = true := not_isEmpty_iff.mpr h3nb
    have hb2 : (!(pyStrip ([] : Str)).isEmpty) = false := by decide
    rw [hb1, hb2, hb3]
    rfl
  refine ⟨rfl, rfl, hcount, ?_, ?_⟩
  · rw [if_pos (by simp), hcount]
    norm_num
  · simp only [List.map_cons, List.map_nil, hp1, hp2, hp3]

/-- C3 (witness): three concrete chunks, with the oracle raising on the
middle one and echoing the others. -/
theorem chunk_failure_isolation_w :
    (extract_content 2 (str "m") 0
      (fun chunk _ => if chunk = str "bb" then none else some chunk)
      (str "aa\n\nbb\n\ncc") (str "find")).1.success = true ∧
    (extract_content 2 (str "m") 0
      (fun chunk _ => if chunk = str "bb" then none else some chunk)
      (str "aa\n\nbb\n\ncc") (str "find")).1.chunks_processed = 3 ∧
    (extract_content 2 (str "m") 0
      (fun chunk _ => if chunk = str "bb" then none else some chunk)
      (str "aa\n\nbb\n\ncc") (str "find")).1.successful_chunks = 2 ∧
    (extract_content 2 (str "m") 0
      (fun chunk _ => if chunk = str "bb" then none else some chunk)
      (str "aa\n\nbb\n\ncc") (str "find")).1.confidence = 2 / 3 ∧
    (extract_content 2 (str "m") 0
      (fun chunk _ => if chunk = str "bb" then none else some chunk)
      (str "aa\n\nbb\n\ncc") (str "find")).1.content =
      combine_results [pyStrip (str "aa"), [], pyStrip (str "cc")] :=
  chunk_failure_isolation 2 (str "m") 0
    (fun chunk _ => if chunk = str "bb" then none else some chunk)
    (str "aa\n\nbb\n\ncc") (str "find") (by decide) (by decide)
    (str "aa") (str "bb") (str "cc") (str "aa") (str "cc")
    (by decide) (by decide) (by decide) (by decide) (by decide) (by decide)

/-- C6: counterexample — content " a " of length 3 with chunk size 10 is
returned as the single chunk " a ", which is not the whitespace-trimmed
input "a" and is not itself trimmed, contradicting the claim. -/
theorem single_chunk_trim_cex :
    intelligent_chunking 10 (str " a ") = [str " a "] ∧
    pyStrip (str " a ") = str "a" ∧
    str " a " ≠ str "a" := by
  decide

/-- C6 (amended): content of length at most S is returned as exactly one
chunk equal to the input unchanged (the fast path performs no trimming);
chunks produced by the splitting paths for longer content are each equal to
their own trim. -/
theorem single_chunk_identity (S : Nat) (content : Str) :
    (content.length ≤ S → intelligent_chunking S content = [content]) ∧
    (¬content.length ≤ S →
      ∀ c ∈ intelligent_chunking S content, pyStrip c = c) := by
  constructor
  · exact fun h => intelligent_chunking_le h
  · intro h c hc
    rcases intelligent_chunking_cases S content h with he | he <;>
      rw [he] at hc
    · obtain ⟨x, rfl⟩ := greedyChunks_trimmed S PARA_SEP _ c hc
      exact pyStrip_idem x
    · obtain ⟨x, rfl⟩ := greedyChunks_trimmed S SENT_SEP _ c hc
      exact pyStrip_idem x

/-- C6 (amended, witness): a short input comes back unchanged as one chunk,
and the chunks of a long input are their own trims. -/
theorem single_chunk_identity_w :
    intelligent_chunking 5 (str "ab") = [str "ab"] ∧
    (∀ c ∈ intelligent_chunking 2 (str "aaa"), pyStrip c = c) :=
  ⟨(single_chunk_identity 5 (str "ab")).1 (by decide),
   (single_chunk_identity 2 (str "aaa")).2 (by decide)⟩

/-- C5: counterexample — with S = 8 the content "a. b\n\nc. d" (length 10)
is emitted as one chunk of length 10 > 8 that consists of two paragraphs
and three sentences, so it is not a single atomic unit; the claimed bound
of S with a single-unit exception is violated. -/
theorem chunk_size_bound_cex :
    intelligent_chunking 8 (str "a. b\n\nc. d") = [str "a. b\n\nc. d"] ∧
    (str "a. b\n\nc. d").length = 10 ∧
    (pySplit PARA_SEP (str "a. b\n\nc. d")).length = 2 ∧
    (pySplit SENT_SEP (str "a. b\n\nc. d")).length = 3 := by
  decide

/-- C5 (amended): for content longer than S every emitted chunk has length
at most S + 2 — the greedy size check ignores the two-character joiner
("\n\n" or ". ") inserted between accumulated units — except chunks that
are (the trim of) a single paragraph or a single sentence, which may be
arbitrarily long. -/
theorem chunk_size_bound (S : Nat) (content : Str)
    (h : ¬content.length ≤ S) :
    ∀ c ∈ intelligent_chunking S content,
      c.length ≤ S + 2 ∨
      ∃ u, (u ∈ pySplit PARA_SEP content ∨ u ∈ pySplit SENT_SEP content) ∧
        c = pyStrip u := by
  intro c hc
  rcases intelligent_chunking_cases S content h with he | he <;> rw [he] at hc
  · rcases greedyChunks_bound S PARA_SEP _ c hc with hlen | ⟨u, hu, hequ⟩
    · left
      have hsep : PARA_SEP.length = 2 := rfl
      rw [hsep] at hlen
      exact hlen
    · exact Or.inr ⟨u, Or.inl hu, hequ⟩
  · rcases greedyChunks_bound S SENT_SEP _ c hc with hlen | ⟨u, hu, hequ⟩
    · left
      have hsep : SENT_SEP.length = 2 := rfl
      rw [hsep] at hlen
      exact hlen
    · exact Or.inr ⟨u, Or.inr hu, hequ⟩

/-- C5 (amended, witness): with S = 2 the first chunk of the three-paragraph
content satisfies the amended bound. -/
theorem chunk_size_bound_w :
    (str "aa").length ≤ 2 + 2 ∨
    ∃ u, (u ∈ pySplit PARA_SEP (str "aa\n\nbb\n\ncc") ∨
          u ∈ pySplit SENT_SEP (str "aa\n\nbb\n\ncc")) ∧
      str "aa" = pyStrip u :=
  chunk_size_bound 2 (str "aa\n\nbb\n\ncc") (by decide) (str "aa") (by decide)

/-- C7: counterexample — with S = 1 the content "aa. bb" is split by the
sentence fallback into chunks ["aa", "bb"]: the period of the ". "
separator is dropped at the chunk boundary, so concatenating the chunks
does not reconstruct the original content even after ignoring all
whitespace. -/
theorem chunk_reconstruction_cex :
    intelligent_chunking 1 (str "aa. bb") = [str "aa", str "bb"] ∧
    nws (List.flatten (intelligent_chunking 1 (str "aa. bb"))) ≠
      nws (str "aa. bb") := by
  decide

/-- C7 (amended): for content longer than S whose paragraphs and sentences
are all non-blank, the emitted chunk sequence corresponds to a partition of
the original unit sequence (the paragraphs, or the sentences in the
fallback) into consecutive non-empty groups — no unit is dropped or
duplicated — with each chunk the trim of its group joined by the
separator; rejoining all units with the separator reconstructs the
original content exactly, but the separator between two units that land in
different chunks is lost (only whitespace for the paragraph separator, a
period for sentences, as the counterexample shows). -/
theorem chunk_partition (S : Nat) (content : Str)
    (h : ¬content.length ≤ S)
    (hp : ∀ u ∈ pySplit PARA_SEP content, pyStrip u ≠ [])
    (hs : ∀ u ∈ pySplit SENT_SEP content, pyStrip u ≠ []) :
    pyJoin PARA_SEP (pySplit PARA_SEP content) = content ∧
    pyJoin SENT_SEP (pySplit SENT_SEP content) = content ∧
    ∃ (sep : Str) (units : List Str) (groups : List (List Str)),
      ((sep = PARA_SEP ∧ units = pySplit PARA_SEP content) ∨
       (sep = SENT_SEP ∧ units = pySplit SENT_SEP content)) ∧
      (∀ g ∈ groups, g ≠ []) ∧
      groups.flatten = units ∧
      intelligent_chunking S content =
        groups.map (fun g => pyStrip (pyJoin sep g)) := by
  refine ⟨pyJoin_pySplit (by decide) content,
    pyJoin_pySplit (by decide) content, ?_⟩
  rcases intelligent_chunking_cases S content h with he | he
  · obtain ⟨groups, h1, h2, h3⟩ := greedyChunks_partition S PARA_SEP _ hp
    exact ⟨PARA_SEP, pySplit PARA_SEP content, groups, Or.inl ⟨rfl, rfl⟩,
      h1, h2, he.trans h3⟩
  · obtain ⟨groups, h1, h2, h3⟩ := greedyChunks_partition S SENT_SEP _ hs
    exact ⟨SENT_SEP, pySplit SENT_SEP content, groups, Or.inr ⟨rfl, rfl⟩,
      h1, h2, he.trans h3⟩

/-- C7 (amended, witness): the three-paragraph content is partitioned
losslessly into its paragraphs. -/
theorem chunk_partition_w :
    pyJoin PARA_SEP (pySplit PARA_SEP (str "aa\n\nbb\n\ncc")) =
      str "aa\n\nbb\n\ncc" ∧
    pyJoin SENT_SEP (pySplit SENT_SEP (str "aa\n\nbb\n\ncc")) =
      str "aa\n\nbb\n\ncc" ∧
    ∃ (sep : Str) (units : List Str) (groups : List (List Str)),
      ((sep = PARA_SEP ∧ units = pySplit PARA_SEP (str "aa\n\nbb\n\ncc")) ∨
       (sep = SENT_SEP ∧ units = pySplit SENT_SEP (str "aa\n\nbb\n\ncc"))) ∧
      (∀ g ∈ groups, g ≠ []) ∧
      groups.flatten = units ∧
      intelligent_chunking 2 (str "aa\n\nbb\n\ncc") =
        groups.map (fun g => pyStrip (pyJoin sep g)) :=
  chunk_partition 2 (str "aa\n\nbb\n\ncc") (by decide) (by decide) (by decide)

end AiScraper
